import Mathlib

/-!
# CG2271 robot firmware: the interrupt-to-task command pipeline

A shallow embedding of `src/MyProject/main.c`: the UART receive interrupt
handler, the dispatch task `tBrain`, the motor task `tMotorControl` and the
audio task `tAudio`, over an explicit state record.  Calls to the RTOS
semaphore API and to the hardware drivers are recorded in a call trace.

`definitions.h` and `queueFunctions.h` are included by `main.c` but are not
part of the source tree.  The command-byte constants and the note count are
taken as parameters (`Definitions`); the queue operations are modelled from
the specification's description of the bounded command queue.
-/

namespace CG2271

/-! ## Constants of `definitions.h` -/

/-- The constants of `definitions.h` that `main.c` uses.  Their values are not
in the source tree, so every definition below is parameterised by them. -/
structure Definitions where
  ESP32_MISC_RESERVED : Nat
  ESP32_MISC_CONNECTED : Nat
  ESP32_MOVE_FORWARD : Nat
  ESP32_MOVE_BACK : Nat
  ESP32_MOVE_LEFT : Nat
  ESP32_MOVE_RIGHT : Nat
  ESP32_MOVE_STOP : Nat
  SONGMAIN_NOTE_COUNT : Nat
  deriving DecidableEq, Repr

/-- The six `case` labels of the `switch (rx_data)` in `tBrain`, in source order. -/
def Definitions.caseLabels (d : Definitions) : List Nat :=
  [d.ESP32_MISC_CONNECTED, d.ESP32_MOVE_FORWARD, d.ESP32_MOVE_BACK,
   d.ESP32_MOVE_LEFT, d.ESP32_MOVE_RIGHT, d.ESP32_MOVE_STOP]

/-- The labels of one C `switch` are pairwise distinct (a C constraint: the
translation unit does not compile otherwise). -/
def Definitions.CaseLabelsDistinct (d : Definitions) : Prop :=
  d.caseLabels.Nodup

instance (d : Definitions) : Decidable d.CaseLabelsDistinct := by
  unfold Definitions.CaseLabelsDistinct; infer_instance

/-- One admissible choice of the constants, used only to evaluate the model on
concrete inputs. -/
def sampleDefinitions : Definitions where
  ESP32_MISC_RESERVED := 0
  ESP32_MISC_CONNECTED := 1
  ESP32_MOVE_FORWARD := 2
  ESP32_MOVE_BACK := 3
  ESP32_MOVE_LEFT := 4
  ESP32_MOVE_RIGHT := 5
  ESP32_MOVE_STOP := 6
  SONGMAIN_NOTE_COUNT := 3

/-- The enumeration `mvState` (`currMvState` is only ever assigned one of
these five enumerators). -/
inductive mvState where
  | STOP
  | FORWARD
  | BACKWARD
  | LEFT
  | RIGHT
  deriving DecidableEq, Repr

/-! ## Bounded command queue (`queueFunctions.h`) -/

/-- Modelled from the spec: the type `Q_T` of `queueFunctions.h` is missing from
the source tree.  "Classic circular buffer with head/tail indices modulo `N`":
a data buffer, the index of the oldest byte, the index of the next free slot
and the number of buffered bytes. -/
structure Q_T where
  Data : List Nat
  Head : Nat
  Tail : Nat
  Size : Nat
  deriving DecidableEq, Repr

/-- Modelled from the spec: `Q_Init` of `queueFunctions.h` is missing.
"`init()`: resets the queue to empty", discarding any buffered bytes; `N` is
the build-time capacity. -/
def Q_Init (N : Nat) : Q_T :=
  { Data := List.replicate N 0, Head := 0, Tail := 0, Size := 0 }

/-- Modelled from the spec: `Q_Full` of `queueFunctions.h` is missing.
The observer `is_full()`: the queue holds `N` bytes. -/
def Q_Full (N : Nat) (q : Q_T) : Bool :=
  q.Size == N

/-- Modelled from the spec: the observer `size()` of the bounded queue. -/
def Q_Size (q : Q_T) : Nat :=
  q.Size

/-- Modelled from the spec: `Q_Enqueue` of `queueFunctions.h` is missing.
"`enqueue(byte)`: appends one byte if `size < N`; returns success/failure
rather than blocking"; the data slot is written, then the tail index is
advanced modulo `N`. -/
def Q_Enqueue (N : Nat) (q : Q_T) (b : Nat) : Q_T × Bool :=
  if q.Size < N then
    ({ q with Data := q.Data.set q.Tail b, Tail := (q.Tail + 1) % N, Size := q.Size + 1 }, true)
  else
    (q, false)

/-- Modelled from the spec: `Q_Dequeue` of `queueFunctions.h` is missing.
"`dequeue()`: removes and returns the oldest byte"; on an empty queue it
reports an explicit "empty" error (`none`) and leaves the queue untouched. -/
def Q_Dequeue (N : Nat) (q : Q_T) : Option (Nat × Q_T) :=
  if q.Size = 0 then none
  else some (q.Data.getD q.Head 0, { q with Head := (q.Head + 1) % N, Size := q.Size - 1 })

/-- The buffered bytes, oldest first: the `Size` slots starting at `Head`,
indices taken modulo `N`. -/
def Q_contents (N : Nat) (q : Q_T) : List Nat :=
  (List.range q.Size).map (fun i => q.Data.getD ((q.Head + i) % N) 0)

/-- The capacity of the buffer: the number of data slots. -/
def Q_capacity (q : Q_T) : Nat :=
  q.Data.length

/-! ## Shared state, semaphores and the call trace -/

/-- The semaphore handles declared in `main.c`. -/
inductive Semaphore where
  | tBrainSem
  | tMotorControlSem
  | tLEDControlSem
  | tAudioControlSem
  deriving DecidableEq, Repr

/-- Calls that leave `main.c`: semaphore releases and hardware driver calls. -/
inductive Call where
  | osSemaphoreRelease (sem : Semaphore)
  | moveStop
  | moveForward (power : Nat)
  | moveBackward (power : Nat)
  | moveLeft (power : Nat)
  | moveRight (power : Nat)
  | audioConnEst
  | audioRunFin
  | audioSong (note : Nat)
  deriving DecidableEq, Repr

/-- The global variables of `main.c` that the modelled tasks touch, the token
counts of the three semaphores created in `main`, and the calls made so far. -/
structure State where
  rx_data : Nat
  isConnected : Bool
  runFinished : Bool
  currMvState : mvState
  isSelfDriving : Bool
  Rx_Q : Q_T
  tBrainSem : Nat
  tMotorControlSem : Nat
  tAudioControlSem : Nat
  trace : List Call
  deriving DecidableEq, Repr

/-- The globals as initialised in `main.c` (lines 12-17), an empty receive
queue of capacity `N`, and the semaphores as created by
`osSemaphoreNew(1,0,NULL)` (initial count 0). -/
def initState (N : Nat) (d : Definitions) : State where
  rx_data := d.ESP32_MISC_RESERVED
  isConnected := false
  runFinished := false
  currMvState := mvState.STOP
  isSelfDriving := false
  Rx_Q := Q_Init N
  tBrainSem := 0
  tMotorControlSem := 0
  tAudioControlSem := 0
  trace := []

/-- The `max_count` argument of every `osSemaphoreNew(1,0,NULL)` in `main`. -/
def semMaxCount : Nat := 1

/-- Token count of a semaphore (`tLEDControlSem` is never created in `main`). -/
def semCount (sem : Semaphore) (s : State) : Nat :=
  match sem with
  | Semaphore.tBrainSem => s.tBrainSem
  | Semaphore.tMotorControlSem => s.tMotorControlSem
  | Semaphore.tAudioControlSem => s.tAudioControlSem
  | Semaphore.tLEDControlSem => 0

/-- Overwrite the token count of a semaphore. -/
def setSemCount (sem : Semaphore) (n : Nat) (s : State) : State :=
  match sem with
  | Semaphore.tBrainSem => { s with tBrainSem := n }
  | Semaphore.tMotorControlSem => { s with tMotorControlSem := n }
  | Semaphore.tAudioControlSem => { s with tAudioControlSem := n }
  | Semaphore.tLEDControlSem => s

/-- CMSIS-RTOS2 `osSemaphoreRelease`: the call is recorded; a token is added
unless the count already is at `max_count`, in which case the call fails and
leaves the count. -/
def osSemaphoreRelease (sem : Semaphore) (s : State) : State :=
  let s1 := { s with trace := s.trace ++ [Call.osSemaphoreRelease sem] }
  if semCount sem s1 < semMaxCount then setSemCount sem (semCount sem s1 + 1) s1 else s1

/-- CMSIS-RTOS2 `osSemaphoreAcquire(sem, osWaitForever)`: takes one token;
`none` when there is no token, i.e. the caller stays blocked. -/
def osSemaphoreAcquire (sem : Semaphore) (s : State) : Option State :=
  if semCount sem s = 0 then none else some (setSemCount sem (semCount sem s - 1) s)

/-! ## `UART2_IRQHandler` (main.c lines 36-59) -/

/-- One run of `UART2_IRQHandler`.  `rdrf` is `UART2->S1 & UART_S1_RDRF_MASK`
and `D` the byte read from `UART2->D`. -/
def UART2_IRQHandler (N : Nat) (rdrf : Bool) (D : Nat) (s : State) : State :=
  if rdrf then
    if !Q_Full N s.Rx_Q then
      let s1 := { s with Rx_Q := (Q_Enqueue N s.Rx_Q D).1 }
      osSemaphoreRelease Semaphore.tBrainSem s1
    else
      let s1 := { s with Rx_Q := Q_Init N }
      { s1 with Rx_Q := (Q_Enqueue N s1.Rx_Q D).1 }
  else s

/-! ## `tBrain` (main.c lines 64-120) -/

/-- Outcome of running a piece of a task from a state. -/
inductive Result where
  | ok (s : State)
  | blocked
  | emptyDequeue
  deriving DecidableEq, Repr

/-- Lines 69-118 once `Q_Dequeue` has returned `b`: the byte is stored in
`rx_data` and the `switch` is executed. -/
def tBrain_dispatch (d : Definitions) (b : Nat) (s : State) : State :=
  let s0 := { s with rx_data := b }
  if b = d.ESP32_MISC_CONNECTED then
    let s1 := { s0 with isConnected := true }
    let s2 := osSemaphoreRelease Semaphore.tAudioControlSem s1
    { s2 with rx_data := d.ESP32_MISC_RESERVED }
  else if b = d.ESP32_MOVE_FORWARD then
    osSemaphoreRelease Semaphore.tMotorControlSem { s0 with currMvState := mvState.FORWARD }
  else if b = d.ESP32_MOVE_BACK then
    osSemaphoreRelease Semaphore.tMotorControlSem { s0 with currMvState := mvState.BACKWARD }
  else if b = d.ESP32_MOVE_LEFT then
    osSemaphoreRelease Semaphore.tMotorControlSem { s0 with currMvState := mvState.LEFT }
  else if b = d.ESP32_MOVE_RIGHT then
    osSemaphoreRelease Semaphore.tMotorControlSem { s0 with currMvState := mvState.RIGHT }
  else if b = d.ESP32_MOVE_STOP then
    osSemaphoreRelease Semaphore.tMotorControlSem { s0 with currMvState := mvState.STOP }
  else s0

/-- Lines 69-118: `rx_data = Q_Dequeue(&Rx_Q)` followed by the `switch`. -/
def tBrain_body (N : Nat) (d : Definitions) (s : State) : Result :=
  match Q_Dequeue N s.Rx_Q with
  | none => Result.emptyDequeue
  | some (b, q) => Result.ok (tBrain_dispatch d b { s with Rx_Q := q })

/-- One iteration of the `for (;;)` loop of `tBrain`: line 68, then lines
69-118, with no other code running in between. -/
def tBrain_iteration (N : Nat) (d : Definitions) (s : State) : Result :=
  match osSemaphoreAcquire Semaphore.tBrainSem s with
  | none => Result.blocked
  | some s1 => tBrain_body N d s1

/-! ## `tMotorControl` (main.c lines 122-148) -/

/-- The actuation call selected by the `switch (currMvState)` (lines 127-146).
The `default: break;` arm is not reached for the five enumerators. -/
def actuation (m : mvState) : Call :=
  match m with
  | mvState.STOP => Call.moveStop
  | mvState.FORWARD => Call.moveForward 100
  | mvState.BACKWARD => Call.moveBackward 100
  | mvState.LEFT => Call.moveLeft 100
  | mvState.RIGHT => Call.moveRight 100

/-- One iteration of the `for (;;)` loop of `tMotorControl`; `none` when the
task stays blocked on `tMotorControlSem`. -/
def tMotorControl_wake (s : State) : Option State :=
  match osSemaphoreAcquire Semaphore.tMotorControlSem s with
  | none => none
  | some s1 => some { s1 with trace := s1.trace ++ [actuation s1.currMvState] }

/-! ## `tAudio` (main.c lines 209-241) -/

/-- The local variables of `tAudio` (lines 211-213). -/
structure AudioLocals where
  localIsConnected : Bool
  localRunFinished : Bool
  currNote : Nat
  deriving DecidableEq, Repr

/-- Lines 223-239: the priority-ordered selection made on one wake of the
signaled loop, given the values read from `isConnected` and `runFinished`.
Returns the updated locals and the driver call made. -/
def tAudio_select (d : Definitions) (isConnected runFinished : Bool) (l : AudioLocals) :
    AudioLocals × Call :=
  if isConnected && !l.localIsConnected then
    ({ l with localIsConnected := true }, Call.audioConnEst)
  else if runFinished && !l.localRunFinished then
    ({ l with localRunFinished := true }, Call.audioRunFin)
  else
    ({ l with currNote := if l.currNote = d.SONGMAIN_NOTE_COUNT then 0 else l.currNote + 1 },
     Call.audioSong l.currNote)

/-- Successive wakes of the signaled loop (lines 220-240), one per observed
pair `(isConnected, runFinished)`; returns the final locals and the calls made. -/
def tAudio_wakes (d : Definitions) : List (Bool × Bool) → AudioLocals → AudioLocals × List Call
  | [], l => (l, [])
  | (c, f) :: rest, l =>
    let r := tAudio_select d c f l
    let t := tAudio_wakes d rest r.1
    (t.1, r.2 :: t.2)

/-- The two loops of `tAudio`: `while (1)` at lines 215-218 and `for (;;)` at
lines 220-240. -/
inductive AudioPc where
  | connEstLoop
  | signaledLoop
  deriving DecidableEq, Repr

/-- Control point and locals of the task `tAudio`. -/
structure AudioTask where
  pc : AudioPc
  locals : AudioLocals
  deriving DecidableEq, Repr

/-- The task at entry: locals as initialised at lines 211-213, control at the
first loop. -/
def tAudio_entry : AudioTask :=
  { pc := AudioPc.connEstLoop,
    locals := { localIsConnected := false, localRunFinished := false, currNote := 0 } }

/-- One loop iteration of `tAudio`.  In the first loop the condition is the
constant `1` and the body `audioConnEst();` has no `break`, so control stays
there.  In the signaled loop the task acquires `tAudioControlSem` (`none` when
it stays blocked) and makes the selection of lines 223-239. -/
def tAudio_step (d : Definitions) (a : AudioTask) (s : State) : Option (AudioTask × State) :=
  match a.pc with
  | AudioPc.connEstLoop => some (a, { s with trace := s.trace ++ [Call.audioConnEst] })
  | AudioPc.signaledLoop =>
    match osSemaphoreAcquire Semaphore.tAudioControlSem s with
    | none => none
    | some s1 =>
      let r := tAudio_select d s1.isConnected s1.runFinished a.locals
      some ({ a with locals := r.1 }, { s1 with trace := s1.trace ++ [r.2] })

/-- Run `tAudio` for `n` loop iterations (fewer if it blocks). -/
def tAudio_run (d : Definitions) : Nat → AudioTask → State → AudioTask × State
  | 0, a, s => (a, s)
  | n + 1, a, s =>
    match tAudio_step d a s with
    | none => (a, s)
    | some (a1, s1) => tAudio_run d n a1 s1

/-! ## Runs of the pipeline -/

/-- Successive receive-ready interrupts delivering the given bytes, with no
task running in between. -/
def arrivals (N : Nat) : List Nat → State → State
  | [], s => s
  | D :: rest, s => arrivals N rest (UART2_IRQHandler N true D s)

/-- The five movement command bytes, each with the movement state it
commands (the `case` label and the enumerator assigned under it). -/
def movementCommands (d : Definitions) : List (Nat × mvState) :=
  [(d.ESP32_MOVE_FORWARD, mvState.FORWARD), (d.ESP32_MOVE_BACK, mvState.BACKWARD),
   (d.ESP32_MOVE_LEFT, mvState.LEFT), (d.ESP32_MOVE_RIGHT, mvState.RIGHT),
   (d.ESP32_MOVE_STOP, mvState.STOP)]

/-- The movement state commanded by a byte, if it is a movement command. -/
def commandedState (d : Definitions) (b : Nat) : Option mvState :=
  List.lookup b (movementCommands d)

/-- The states `tBrain` goes through when it dispatches the given bytes in
order, the starting state included. -/
def dispatchRun (d : Definitions) : State → List Nat → List State
  | s, [] => [s]
  | s, b :: bs => s :: dispatchRun d (tBrain_dispatch d b s) bs

/-- Each byte is dispatched by `tBrain` and then `tMotorControl` runs one
iteration; `none` if the motor task would stay blocked. -/
def commandRun (d : Definitions) : List Nat → State → Option State
  | [], s => some s
  | b :: bs, s =>
    match tMotorControl_wake (tBrain_dispatch d b s) with
    | none => none
    | some s1 => commandRun d bs s1

/-- Whether a call is one of the motor driver calls. -/
def isActuation : Call → Bool
  | Call.moveStop => true
  | Call.moveForward _ => true
  | Call.moveBackward _ => true
  | Call.moveLeft _ => true
  | Call.moveRight _ => true
  | _ => false

/-- The motor driver calls of a trace, in order. -/
def actuations (t : List Call) : List Call :=
  t.filter isActuation

/-- A scheduling step: one run of `UART2_IRQHandler` on a receive-ready event
delivering `D`, or the dispatch task running. -/
inductive Step where
  | irq (D : Nat)
  | brain
  deriving DecidableEq, Repr

/-- Step model with atomic steps: a handler run, or one whole `tBrain`
iteration.  A `brain` step while `tBrainSem` has no token leaves the state
(the task stays blocked). -/
def stepAtomic (N : Nat) (d : Definitions) (s : State) : Step → Result
  | Step.irq D => Result.ok (UART2_IRQHandler N true D s)
  | Step.brain =>
    match tBrain_iteration N d s with
    | Result.blocked => Result.ok s
    | r => r

/-- Run a schedule in the atomic step model. -/
def execAtomic (N : Nat) (d : Definitions) : List Step → State → Result
  | [], s => Result.ok s
  | st :: rest, s =>
    match stepAtomic N d s st with
    | Result.ok s1 => execAtomic N d rest s1
    | r => r

/-- Control point of `tBrain` inside its loop body: before line 68
(`osSemaphoreAcquire`) or before line 69 (`Q_Dequeue`). -/
inductive BrainPc where
  | atAcquire
  | atDequeue
  deriving DecidableEq, Repr

/-- Shared state together with the control point of `tBrain`. -/
structure Sys where
  st : State
  pc : BrainPc
  deriving DecidableEq, Repr

/-- Step model in which the interrupt may preempt `tBrain` between line 68 and
line 69: a `brain` step executes line 68 (staying put while blocked) or lines
69-118.  `none` records a call of `Q_Dequeue` on an empty queue. -/
def stepInterleaved (N : Nat) (d : Definitions) (c : Sys) : Step → Option Sys
  | Step.irq D => some { c with st := UART2_IRQHandler N true D c.st }
  | Step.brain =>
    match c.pc with
    | BrainPc.atAcquire =>
      match osSemaphoreAcquire Semaphore.tBrainSem c.st with
      | none => some c
      | some s1 => some { st := s1, pc := BrainPc.atDequeue }
    | BrainPc.atDequeue =>
      match tBrain_body N d c.st with
      | Result.ok s1 => some { st := s1, pc := BrainPc.atAcquire }
      | _ => none

/-- Run a schedule in the interleaved step model. -/
def execInterleaved (N : Nat) (d : Definitions) : List Step → Sys → Option Sys
  | [], c => some c
  | st :: rest, c =>
    match stepInterleaved N d c st with
    | none => none
    | some c1 => execInterleaved N d rest c1

/-- The system at start-up: initial globals, `tBrain` about to acquire. -/
def initSys (N : Nat) (d : Definitions) : Sys :=
  { st := initState N d, pc := BrainPc.atAcquire }

/-- A concrete state: the initial globals with the single byte `b` buffered in
a queue of capacity 4 and one token on `tBrainSem`. -/
def sampleState (b : Nat) : State :=
  UART2_IRQHandler 4 true b (initState 4 sampleDefinitions)

/-- The signalling invariant of the atomic step model: `tBrainSem` holds at
most one token, there are at least as many buffered bytes as tokens, and the
queue is within its capacity. -/
def SignalInv (N : Nat) (s : State) : Prop :=
  s.tBrainSem ≤ 1 ∧ s.tBrainSem ≤ s.Rx_Q.Size ∧ s.Rx_Q.Size ≤ N

/-! ## Helper lemmas -/

/-- An enabled `tBrain` iteration whose `Q_Dequeue` returns `b`: one token of
`tBrainSem` is taken, the queue is advanced and `b` is dispatched. -/
theorem tBrain_iteration_eq (N : Nat) (d : Definitions) (s : State) (b : Nat) (q : Q_T)
    (hsem : 0 < s.tBrainSem) (hdq : Q_Dequeue N s.Rx_Q = some (b, q)) :
    tBrain_iteration N d s =
      Result.ok (tBrain_dispatch d b { s with tBrainSem := s.tBrainSem - 1, Rx_Q := q }) := by
  have h0 : s.tBrainSem ≠ 0 := Nat.pos_iff_ne_zero.mp hsem
  simp [tBrain_iteration, osSemaphoreAcquire, semCount, setSemCount, tBrain_body, h0, hdq]

/-! ## Properties of `tBrain` -/

/-- C1: for every shared state and each of the five movement command bytes, an
iteration of `tBrain` that dequeues that byte ends with `currMvState` at the
corresponding value and makes exactly one call, `osSemaphoreRelease` on
`tMotorControlSem` (so no other semaphore is released). -/
theorem tBrain_movement_command (N : Nat) (d : Definitions) (s : State) (b : Nat) (m : mvState)
    (q : Q_T) (hd : d.CaseLabelsDistinct) (hb : (b, m) ∈ movementCommands d)
    (hsem : 0 < s.tBrainSem) (hdq : Q_Dequeue N s.Rx_Q = some (b, q)) :
    ∃ s1, tBrain_iteration N d s = Result.ok s1 ∧ s1.currMvState = m ∧
      s1.trace = s.trace ++ [Call.osSemaphoreRelease Semaphore.tMotorControlSem] := by
  refine ⟨_, tBrain_iteration_eq N d s b q hsem hdq, ?_⟩
  simp only [Definitions.CaseLabelsDistinct, Definitions.caseLabels, List.nodup_cons,
    List.mem_cons, List.mem_singleton, not_or, List.not_mem_nil, not_false_eq_true,
    List.nodup_nil, and_true] at hd
  obtain ⟨⟨h12, h13, h14, h15, h16⟩, ⟨h23, h24, h25, h26⟩, ⟨h34, h35, h36⟩, ⟨h45, h46⟩, h56⟩ := hd
  simp only [movementCommands, List.mem_cons, List.mem_singleton, Prod.mk.injEq,
    List.not_mem_nil, or_false] at hb
  rcases hb with ⟨rfl, rfl⟩ | ⟨rfl, rfl⟩ | ⟨rfl, rfl⟩ | ⟨rfl, rfl⟩ | ⟨rfl, rfl⟩ <;>
    simp [tBrain_dispatch, osSemaphoreRelease, semCount, setSemCount, semMaxCount, Ne.symm, *] <;>
    split <;> simp

/-- Witness for C1 at the sample constants: `MOVE_LEFT` buffered in the
initial state. -/
theorem tBrain_movement_command_witness :
    ∃ s1, tBrain_iteration 4 sampleDefinitions (sampleState 4) = Result.ok s1 ∧
      s1.currMvState = mvState.LEFT ∧
      s1.trace = (sampleState 4).trace ++ [Call.osSemaphoreRelease Semaphore.tMotorControlSem] :=
  tBrain_movement_command 4 sampleDefinitions (sampleState 4) 4 mvState.LEFT
    { Data := [4, 0, 0, 0], Head := 1, Tail := 1, Size := 0 }
    (by decide) (by decide) (by decide) (by decide)

/-- C2, as stated, fails: with `rx_data` still `ESP32_MISC_RESERVED` (0 in the
sample constants) and the unrecognised byte 255 buffered, the iteration
succeeds and `rx_data` no longer has its value from before the iteration. -/
theorem tBrain_unrecognised_rx_data_changes :
    255 ∉ sampleDefinitions.caseLabels ∧
    (sampleState 255).rx_data = 0 ∧
    ∃ s1, tBrain_iteration 4 sampleDefinitions (sampleState 255) = Result.ok s1 ∧
      s1.rx_data = 255 ∧ s1.rx_data ≠ (sampleState 255).rx_data := by
  refine ⟨by decide, by decide, _, rfl, by decide, by decide⟩

/-- C2 (amended): for every shared state and every dequeued byte that is none
of the six case labels, one iteration of `tBrain` leaves `currMvState`,
`isConnected` and `runFinished` unchanged, makes no call (no semaphore is
released, the motor and audio token counts are unchanged), and leaves the
dequeued byte in `rx_data`. -/
theorem tBrain_unrecognised_byte (N : Nat) (d : Definitions) (s : State) (b : Nat) (q : Q_T)
    (hb : b ∉ d.caseLabels) (hsem : 0 < s.tBrainSem)
    (hdq : Q_Dequeue N s.Rx_Q = some (b, q)) :
    ∃ s1, tBrain_iteration N d s = Result.ok s1 ∧
      s1.currMvState = s.currMvState ∧ s1.isConnected = s.isConnected ∧
      s1.runFinished = s.runFinished ∧ s1.trace = s.trace ∧
      s1.tMotorControlSem = s.tMotorControlSem ∧ s1.tAudioControlSem = s.tAudioControlSem ∧
      s1.rx_data = b := by
  refine ⟨_, tBrain_iteration_eq N d s b q hsem hdq, ?_⟩
  simp only [Definitions.caseLabels, List.mem_cons, List.mem_singleton, not_or,
    List.not_mem_nil, not_false_eq_true, and_true] at hb
  obtain ⟨h1, h2, h3, h4, h5, h6⟩ := hb
  simp [tBrain_dispatch, h1, h2, h3, h4, h5, h6]

/-- Witness for the amended C2: the byte 255 at the sample constants. -/
theorem tBrain_unrecognised_byte_witness :
    ∃ s1, tBrain_iteration 4 sampleDefinitions (sampleState 255) = Result.ok s1 ∧
      s1.currMvState = (sampleState 255).currMvState ∧
      s1.isConnected = (sampleState 255).isConnected ∧
      s1.runFinished = (sampleState 255).runFinished ∧ s1.trace = (sampleState 255).trace ∧
      s1.tMotorControlSem = (sampleState 255).tMotorControlSem ∧
      s1.tAudioControlSem = (sampleState 255).tAudioControlSem ∧
      s1.rx_data = 255 :=
  tBrain_unrecognised_byte 4 sampleDefinitions (sampleState 255) 255
    { Data := [255, 0, 0, 0], Head := 1, Tail := 1, Size := 0 }
    (by decide) (by decide) (by decide)

/-- The connection flag after one dispatch: it was set before, or the byte is
`ESP32_MISC_CONNECTED`. -/
theorem tBrain_dispatch_isConnected (d : Definitions) (b : Nat) (s : State) :
    (tBrain_dispatch d b s).isConnected = (s.isConnected || (b == d.ESP32_MISC_CONNECTED)) := by
  unfold tBrain_dispatch osSemaphoreRelease
  simp only [semCount, setSemCount]
  split_ifs <;> simp_all

/-- From a connected state every state of a dispatch run is connected. -/
theorem dispatchRun_connected (d : Definitions) (bs : List Nat) :
    ∀ s : State, s.isConnected = true →
      (dispatchRun d s bs).map (fun t => t.isConnected) = List.replicate (bs.length + 1) true := by
  induction bs with
  | nil => intro s hs; simp [dispatchRun, hs]
  | cons b bs ih =>
    intro s hs
    have h1 : (tBrain_dispatch d b s).isConnected = true := by
      rw [tBrain_dispatch_isConnected, hs]; rfl
    simp [dispatchRun, hs, ih _ h1, List.replicate_succ]

/-- The flags along a dispatch run are a block of `false` followed by a block
of `true`. -/
theorem dispatchRun_flags (d : Definitions) (bs : List Nat) :
    ∀ s : State, ∃ k, k ≤ bs.length + 1 ∧
      (dispatchRun d s bs).map (fun t => t.isConnected) =
        List.replicate k false ++ List.replicate (bs.length + 1 - k) true := by
  induction bs with
  | nil =>
    intro s
    cases hs : s.isConnected with
    | false => exact ⟨1, by simp, by simp [dispatchRun, hs]⟩
    | true => exact ⟨0, by simp, by simp [dispatchRun, hs]⟩
  | cons b bs ih =>
    intro s
    cases hs : s.isConnected with
    | true => exact ⟨0, by simp, by simpa using dispatchRun_connected d (b :: bs) s hs⟩
    | false =>
      obtain ⟨k, hk, hflags⟩ := ih (tBrain_dispatch d b s)
      refine ⟨k + 1, by simpa using hk, ?_⟩
      simp [dispatchRun, hs, hflags, List.replicate_succ]

/-- C4: the connection flag is monotonic.  Along the states `tBrain` goes
through while dispatching any sequence of bytes from any state, the flag is
`false` on an initial segment and `true` on every later state, so it goes from
`false` to `true` at most once and is never reset; a single dispatch yields
the old flag or-ed with "the byte is CONNECTED", and dispatching
`ESP32_MISC_CONNECTED` always leaves the flag `true`. -/
theorem isConnected_monotonic (d : Definitions) (s : State) (bs : List Nat) :
    (∃ k, k ≤ bs.length + 1 ∧
      (dispatchRun d s bs).map (fun t => t.isConnected) =
        List.replicate k false ++ List.replicate (bs.length + 1 - k) true) ∧
    (∀ b, (tBrain_dispatch d b s).isConnected =
      (s.isConnected || (b == d.ESP32_MISC_CONNECTED))) ∧
    (tBrain_dispatch d d.ESP32_MISC_CONNECTED s).isConnected = true := by
  refine ⟨dispatchRun_flags d bs s, fun b => tBrain_dispatch_isConnected d b s, ?_⟩
  rw [tBrain_dispatch_isConnected]; simp

/-! ## Properties of `UART2_IRQHandler` -/

/-- C3: overflow policy.  For every capacity `N` (a positive array length),
every state whose receive queue is full and every received byte `b`, after the
handler has run on a receive-ready event the queue holds exactly `[b]`: size 1,
capacity still `N`, none of the earlier bytes.  Consequently, with `N = 4` and
six arrivals `b1 .. b6` into the initially empty queue with no dequeue in
between, the queue holds exactly `[b5, b6]`. -/
theorem UART2_IRQHandler_overflow (N : Nat) (s : State) (b : Nat) (hN : 0 < N)
    (hfull : Q_Full N s.Rx_Q = true) :
    Q_contents N (UART2_IRQHandler N true b s).Rx_Q = [b] ∧
    Q_Size (UART2_IRQHandler N true b s).Rx_Q = 1 ∧
    Q_capacity (UART2_IRQHandler N true b s).Rx_Q = N ∧
    (∀ (d : Definitions) (b1 b2 b3 b4 b5 b6 : Nat),
      Q_contents 4 (arrivals 4 [b1, b2, b3, b4, b5, b6] (initState 4 d)).Rx_Q = [b5, b6] ∧
      Q_Size (arrivals 4 [b1, b2, b3, b4, b5, b6] (initState 4 d)).Rx_Q = 2 ∧
      Q_capacity (arrivals 4 [b1, b2, b3, b4, b5, b6] (initState 4 d)).Rx_Q = 4) := by
  have hlt : 0 < (List.replicate N 0).length := by simpa using hN
  refine ⟨?_, ?_, ?_, ?_⟩
  · simp [UART2_IRQHandler, hfull, Q_Init, Q_Enqueue, hN, Q_contents, List.getD_eq_getElem?_getD,
      List.getElem?_set, hlt, List.range_succ]
  · simp [UART2_IRQHandler, hfull, Q_Init, Q_Enqueue, hN, Q_Size]
  · simp [UART2_IRQHandler, hfull, Q_Init, Q_Enqueue, hN, Q_capacity]
  · intro d b1 b2 b3 b4 b5 b6
    simp [arrivals, UART2_IRQHandler, Q_Full, Q_Init, Q_Enqueue, Q_contents, Q_Size, Q_capacity,
      initState, osSemaphoreRelease, semCount, setSemCount, semMaxCount, List.range_succ]

/-- Witness for C3: the queue of capacity 4 filled with 1, 2, 3, 4, then the
byte 9 arrives. -/
theorem UART2_IRQHandler_overflow_witness :
    Q_Full 4 (arrivals 4 [1, 2, 3, 4] (initState 4 sampleDefinitions)).Rx_Q = true ∧
    Q_contents 4 (arrivals 4 [1, 2, 3, 4] (initState 4 sampleDefinitions)).Rx_Q = [1, 2, 3, 4] ∧
    Q_contents 4 (UART2_IRQHandler 4 true 9
      (arrivals 4 [1, 2, 3, 4] (initState 4 sampleDefinitions))).Rx_Q = [9] :=
  ⟨by decide, by decide,
    (UART2_IRQHandler_overflow 4 (arrivals 4 [1, 2, 3, 4] (initState 4 sampleDefinitions)) 9
      (by decide) (by decide)).1⟩

/-! ## Properties of `tMotorControl` -/

/-- A byte that commands a movement state is one of the listed pairs. -/
theorem commandedState_mem (d : Definitions) (b : Nat) (m : mvState)
    (h : commandedState d b = some m) : (b, m) ∈ movementCommands d := by
  simp only [commandedState, movementCommands, List.lookup] at h
  simp only [movementCommands, List.mem_cons, List.mem_singleton, Prod.mk.injEq,
    List.not_mem_nil, or_false]
  split at h
  · simp_all
  · split at h
    · simp_all
    · split at h
      · simp_all
      · split at h
        · simp_all
        · split at h
          · simp_all
          · simp at h

/-- Dispatching a movement command stores the byte, sets the commanded state
and releases `tMotorControlSem`. -/
theorem tBrain_dispatch_movement (d : Definitions) (s : State) (b : Nat) (m : mvState)
    (hd : d.CaseLabelsDistinct) (hb : (b, m) ∈ movementCommands d) :
    tBrain_dispatch d b s =
      osSemaphoreRelease Semaphore.tMotorControlSem { s with rx_data := b, currMvState := m } := by
  simp only [Definitions.CaseLabelsDistinct, Definitions.caseLabels, List.nodup_cons,
    List.mem_cons, List.mem_singleton, not_or, List.not_mem_nil, not_false_eq_true,
    List.nodup_nil, and_true] at hd
  obtain ⟨⟨h12, h13, h14, h15, h16⟩, ⟨h23, h24, h25, h26⟩, ⟨h34, h35, h36⟩, ⟨h45, h46⟩, h56⟩ := hd
  simp only [movementCommands, List.mem_cons, List.mem_singleton, Prod.mk.injEq,
    List.not_mem_nil, or_false] at hb
  rcases hb with ⟨rfl, rfl⟩ | ⟨rfl, rfl⟩ | ⟨rfl, rfl⟩ | ⟨rfl, rfl⟩ | ⟨rfl, rfl⟩ <;>
    simp [tBrain_dispatch, Ne.symm, *]

/-- After a release of `tMotorControlSem` the motor task is not blocked: its
wake makes the actuation call of the current movement state. -/
theorem wake_after_release (t : State) :
    ∃ s1, tMotorControl_wake (osSemaphoreRelease Semaphore.tMotorControlSem t) = some s1 ∧
      s1.trace = t.trace ++
        [Call.osSemaphoreRelease Semaphore.tMotorControlSem, actuation t.currMvState] ∧
      s1.currMvState = t.currMvState := by
  by_cases h : t.tMotorControlSem = 0
  · simp [tMotorControl_wake, osSemaphoreAcquire, osSemaphoreRelease, semCount, setSemCount,
      semMaxCount, h]
  · have h1 : ¬ t.tMotorControlSem < 1 := by omega
    simp [tMotorControl_wake, osSemaphoreAcquire, osSemaphoreRelease, semCount, setSemCount,
      semMaxCount, h, h1]

/-- Dispatching a movement command and then waking the motor task: the motor
task is not blocked, the two calls made are the release of
`tMotorControlSem` and the actuation of the commanded state. -/
theorem dispatch_then_wake (d : Definitions) (s : State) (b : Nat) (m : mvState)
    (hd : d.CaseLabelsDistinct) (hb : commandedState d b = some m) :
    ∃ s1, tMotorControl_wake (tBrain_dispatch d b s) = some s1 ∧
      s1.trace = s.trace ++ [Call.osSemaphoreRelease Semaphore.tMotorControlSem, actuation m] ∧
      s1.currMvState = m := by
  rw [tBrain_dispatch_movement d s b m hd (commandedState_mem d b m hb)]
  exact wake_after_release _

/-- The motor calls and the final movement state of a run of movement
commands, each followed by one wake of the motor task. -/
theorem commandRun_spec (d : Definitions) (hd : d.CaseLabelsDistinct) (bs : List Nat) :
    ∀ s : State, (∀ b ∈ bs, (commandedState d b).isSome = true) →
      ∃ s1, commandRun d bs s = some s1 ∧
        actuations s1.trace =
          actuations s.trace ++ bs.filterMap (fun b => (commandedState d b).map actuation) ∧
        s1.currMvState = ((bs.getLast?.bind (commandedState d)).getD s.currMvState) := by
  induction bs with
  | nil => intro s _; exact ⟨s, rfl, by simp, by simp⟩
  | cons b bs ih =>
    intro s hbs
    obtain ⟨m, hm⟩ := Option.isSome_iff_exists.mp (hbs b (List.mem_cons_self _ _))
    obtain ⟨s1, hs1, htr, hmv⟩ := dispatch_then_wake d s b m hd hm
    obtain ⟨s2, hs2, htr2, hmv2⟩ := ih s1 (fun x hx => hbs x (List.mem_cons_of_mem _ hx))
    refine ⟨s2, by simp [commandRun, hs1, hs2], ?_, ?_⟩
    · have hact : isActuation (actuation m) = true := by cases m <;> rfl
      have hrel : isActuation (Call.osSemaphoreRelease Semaphore.tMotorControlSem) = false := rfl
      rw [htr2, htr]
      simp [actuations, List.filter_cons, hrel, hact, hm]
    · rw [hmv2, hmv]
      cases bs with
      | nil => simp [hm]
      | cons c cs =>
        obtain ⟨n, hn⟩ := Option.isSome_iff_exists.mp
          (hbs ((c :: cs).getLast (by simp)) (List.mem_cons_of_mem _ (List.getLast_mem _)))
        simp [List.getLast?_eq_getLast, hn]

/-- C9: motor actuation follows the commanded state.  One wake of
`tMotorControl` makes exactly one call, the actuation selected by
`currMvState` (`moveStop` for STOP, otherwise `moveForward`, `moveBackward`,
`moveLeft`, `moveRight` with the parameter 100), and does not modify
`currMvState`.  For every sequence of movement command bytes, each dispatched
by `tBrain` and followed by one wake of `tMotorControl`, the motor calls made
are the commanded directions in order and the final `currMvState` is the last
command's; `[MOVE_FORWARD, MOVE_LEFT, MOVE_STOP]` from the initial state gives
`moveForward(100)`, `moveLeft(100)`, `moveStop()` and ends at STOP. -/
theorem tMotorControl_follows_commands (d : Definitions) (s : State) (bs : List Nat)
    (hd : d.CaseLabelsDistinct) (hbs : ∀ b ∈ bs, (commandedState d b).isSome = true) :
    (∀ t : State, 0 < t.tMotorControlSem →
      ∃ t1, tMotorControl_wake t = some t1 ∧
        t1.trace = t.trace ++ [actuation t.currMvState] ∧ t1.currMvState = t.currMvState) ∧
    (actuation mvState.STOP = Call.moveStop ∧
      actuation mvState.FORWARD = Call.moveForward 100 ∧
      actuation mvState.BACKWARD = Call.moveBackward 100 ∧
      actuation mvState.LEFT = Call.moveLeft 100 ∧
      actuation mvState.RIGHT = Call.moveRight 100) ∧
    (∃ s1, commandRun d bs s = some s1 ∧
      actuations s1.trace =
        actuations s.trace ++ bs.filterMap (fun b => (commandedState d b).map actuation) ∧
      s1.currMvState = ((bs.getLast?.bind (commandedState d)).getD s.currMvState)) ∧
    (∀ N, ∃ s1,
      commandRun d [d.ESP32_MOVE_FORWARD, d.ESP32_MOVE_LEFT, d.ESP32_MOVE_STOP] (initState N d)
        = some s1 ∧
      actuations s1.trace = [Call.moveForward 100, Call.moveLeft 100, Call.moveStop] ∧
      s1.currMvState = mvState.STOP) := by
  refine ⟨?_, ⟨rfl, rfl, rfl, rfl, rfl⟩, commandRun_spec d hd bs s hbs, ?_⟩
  · intro t ht
    have h0 : t.tMotorControlSem ≠ 0 := Nat.pos_iff_ne_zero.mp ht
    simp [tMotorControl_wake, osSemaphoreAcquire, semCount, setSemCount, h0]
  · intro N
    have hd2 := hd
    simp only [Definitions.CaseLabelsDistinct, Definitions.caseLabels, List.nodup_cons,
      List.mem_cons, List.mem_singleton, not_or, List.not_mem_nil, not_false_eq_true,
      List.nodup_nil, and_true] at hd
    obtain ⟨⟨h12, h13, h14, h15, h16⟩, ⟨h23, h24, h25, h26⟩, ⟨h34, h35, h36⟩, ⟨h45, h46⟩, h56⟩ := hd
    have hF : commandedState d d.ESP32_MOVE_FORWARD = some mvState.FORWARD := by
      simp [commandedState, movementCommands, List.lookup]
    have hL : commandedState d d.ESP32_MOVE_LEFT = some mvState.LEFT := by
      simp only [commandedState, movementCommands, List.lookup]
      repeat' split
      all_goals simp_all
    have hS : commandedState d d.ESP32_MOVE_STOP = some mvState.STOP := by
      simp only [commandedState, movementCommands, List.lookup]
      repeat' split
      all_goals simp_all
    have hall : ∀ b ∈ [d.ESP32_MOVE_FORWARD, d.ESP32_MOVE_LEFT, d.ESP32_MOVE_STOP],
        (commandedState d b).isSome = true := by
      intro b hb
      simp only [List.mem_cons, List.mem_singleton, List.not_mem_nil, or_false] at hb
      rcases hb with rfl | rfl | rfl <;> simp [hF, hL, hS]
    obtain ⟨s1, hs1, htr, hmv⟩ := commandRun_spec d hd2 _ (initState N d) hall
    refine ⟨s1, hs1, ?_, ?_⟩
    · rw [htr]; simp [initState, actuations, hF, hL, hS, actuation]
    · rw [hmv]; simp [hS]

/-- Witness for C9 at the sample constants: the bytes for FORWARD, LEFT, STOP
from the initial state. -/
theorem tMotorControl_follows_commands_witness :
    sampleDefinitions.CaseLabelsDistinct ∧
    ∃ s1, commandRun sampleDefinitions [2, 4, 6] (initState 4 sampleDefinitions) = some s1 ∧
      actuations s1.trace =
        actuations (initState 4 sampleDefinitions).trace ++
          [2, 4, 6].filterMap (fun b => (commandedState sampleDefinitions b).map actuation) ∧
      s1.currMvState =
        (([2, 4, 6].getLast?.bind (commandedState sampleDefinitions)).getD
          (initState 4 sampleDefinitions).currMvState) :=
  ⟨by decide,
    (tMotorControl_follows_commands sampleDefinitions (initState 4 sampleDefinitions) [2, 4, 6]
      (by decide) (by decide)).2.2.1⟩

/-! ## The signalling discipline between `UART2_IRQHandler` and `tBrain` -/

/-- Dispatching does not touch `tBrainSem`. -/
theorem tBrain_dispatch_tBrainSem (d : Definitions) (b : Nat) (s : State) :
    (tBrain_dispatch d b s).tBrainSem = s.tBrainSem := by
  unfold tBrain_dispatch osSemaphoreRelease
  simp only [semCount, setSemCount]
  split_ifs <;> rfl

/-- Dispatching does not touch the receive queue. -/
theorem tBrain_dispatch_Rx_Q (d : Definitions) (b : Nat) (s : State) :
    (tBrain_dispatch d b s).Rx_Q = s.Rx_Q := by
  unfold tBrain_dispatch osSemaphoreRelease
  simp only [semCount, setSemCount]
  split_ifs <;> rfl

/-- A handler run preserves the signalling invariant. -/
theorem UART2_IRQHandler_SignalInv (N D : Nat) (s : State) (h : SignalInv N s) :
    SignalInv N (UART2_IRQHandler N true D s) := by
  obtain ⟨h1, h2, h3⟩ := h
  by_cases hf : s.Rx_Q.Size = N
  · by_cases hN : 0 < N
    · simp [SignalInv, UART2_IRQHandler, Q_Full, hf, Q_Init, Q_Enqueue, hN]
      omega
    · have hN0 : N = 0 := by omega
      subst hN0
      simp [SignalInv, UART2_IRQHandler, Q_Full, hf, Q_Init, Q_Enqueue]
      omega
  · have hlt : s.Rx_Q.Size < N := by omega
    by_cases hc : s.tBrainSem = 0
    · simp [SignalInv, UART2_IRQHandler, Q_Full, hf, Q_Enqueue, hlt, osSemaphoreRelease,
        semCount, setSemCount, semMaxCount, hc]
      omega
    · have hc1 : ¬ s.tBrainSem < 1 := by omega
      simp [SignalInv, UART2_IRQHandler, Q_Full, hf, Q_Enqueue, hlt, osSemaphoreRelease,
        semCount, setSemCount, semMaxCount, hc, hc1]
      omega

/-- An atomic step from a state satisfying the signalling invariant never
dequeues from an empty queue and re-establishes the invariant. -/
theorem stepAtomic_SignalInv (N : Nat) (d : Definitions) (s : State) (st : Step)
    (h : SignalInv N s) : ∃ s1, stepAtomic N d s st = Result.ok s1 ∧ SignalInv N s1 := by
  cases st with
  | irq D => exact ⟨_, rfl, UART2_IRQHandler_SignalInv N D s h⟩
  | brain =>
    obtain ⟨h1, h2, h3⟩ := h
    by_cases hc : s.tBrainSem = 0
    · refine ⟨s, ?_, h1, h2, h3⟩
      simp [stepAtomic, tBrain_iteration, osSemaphoreAcquire, semCount, hc]
    · have hsz : s.Rx_Q.Size ≠ 0 := by omega
      have hdq : Q_Dequeue N s.Rx_Q = some (s.Rx_Q.Data.getD s.Rx_Q.Head 0,
          { s.Rx_Q with Head := (s.Rx_Q.Head + 1) % N, Size := s.Rx_Q.Size - 1 }) := by
        simp [Q_Dequeue, hsz]
      have hit := tBrain_iteration_eq N d s _ _ (Nat.pos_of_ne_zero hc) hdq
      obtain ⟨r, hr, hr1, hr2⟩ : ∃ r, tBrain_iteration N d s = Result.ok r ∧
          r.tBrainSem = s.tBrainSem - 1 ∧ r.Rx_Q.Size = s.Rx_Q.Size - 1 :=
        ⟨_, hit, by simp [tBrain_dispatch_tBrainSem], by simp [tBrain_dispatch_Rx_Q]⟩
      refine ⟨r, by simp only [stepAtomic, hr], ?_⟩
      unfold SignalInv
      omega

/-- Every schedule of the atomic step model runs without an empty dequeue and
preserves the signalling invariant. -/
theorem execAtomic_SignalInv (N : Nat) (d : Definitions) (steps : List Step) :
    ∀ s : State, SignalInv N s →
      ∃ s1, execAtomic N d steps s = Result.ok s1 ∧ SignalInv N s1 := by
  induction steps with
  | nil => intro s h; exact ⟨s, rfl, h⟩
  | cons st rest ih =>
    intro s h
    obtain ⟨s1, hs1, hinv⟩ := stepAtomic_SignalInv N d s st h
    obtain ⟨s2, hs2, hinv2⟩ := ih s1 hinv
    exact ⟨s2, by simp [execAtomic, hs1, hs2], hinv2⟩

/-- C8 (the code diverges): the handler can run between line 68 and line 69 of
`tBrain`, and then an empty dequeue is reached.  With capacity 2, a byte
arrives and `tBrain` acquires; two more bytes arrive before it dequeues (a
release, then an overflow reset); it dequeues the one remaining byte and is
back at line 68 with one token but an empty queue, violating "token count at
most queue size"; its next iteration acquires that token and calls
`Q_Dequeue` on the empty queue. -/
theorem interleaved_empty_dequeue :
    (∃ c, execInterleaved 2 sampleDefinitions
        [Step.irq 2, Step.brain, Step.irq 4, Step.irq 6, Step.brain] (initSys 2 sampleDefinitions)
          = some c ∧
      c.pc = BrainPc.atAcquire ∧ c.st.tBrainSem = 1 ∧ Q_Size c.st.Rx_Q = 0 ∧
      ¬ (c.st.tBrainSem ≤ Q_Size c.st.Rx_Q)) ∧
    execInterleaved 2 sampleDefinitions
      [Step.irq 2, Step.brain, Step.irq 4, Step.irq 6, Step.brain, Step.brain, Step.brain]
      (initSys 2 sampleDefinitions) = none := by
  refine ⟨⟨_, rfl, by decide, by decide, by decide, by decide⟩, by decide⟩

/-- When no handler run falls between line 68 and line 69 (whole `tBrain`
iterations as steps), every schedule from the initial state runs without an
empty dequeue and keeps the `tBrainSem` count at most the size of `Rx_Q` and
at most 1: the empty dequeue needs the preemption window. -/
theorem atomic_no_empty_dequeue (N : Nat) (d : Definitions) (steps : List Step) :
    ∃ s, execAtomic N d steps (initState N d) = Result.ok s ∧
      s.tBrainSem ≤ Q_Size s.Rx_Q ∧ s.tBrainSem ≤ semMaxCount := by
  have h0 : SignalInv N (initState N d) := by simp [SignalInv, initState, Q_Init]
  obtain ⟨s, hs, h1, h2, _⟩ := execAtomic_SignalInv N d steps _ h0
  exact ⟨s, hs, h2, h1⟩

/-- C10 (the code diverges): a received byte is stranded.  With capacity 4 the
bytes for FORWARD and STOP arrive before `tBrain` runs; the second release
finds `tBrainSem` already at its maximum of 1 and adds no token; the single
iteration that follows dequeues and dispatches FORWARD, and `tBrain` is then
about to block with count 0 while the STOP byte is still buffered. -/
theorem stranded_byte :
    ∃ s, execAtomic 4 sampleDefinitions
        [Step.irq sampleDefinitions.ESP32_MOVE_FORWARD, Step.irq sampleDefinitions.ESP32_MOVE_STOP,
          Step.brain]
        (initState 4 sampleDefinitions) = Result.ok s ∧
      s.tBrainSem = 0 ∧ tBrain_iteration 4 sampleDefinitions s = Result.blocked ∧
      Q_Size s.Rx_Q = 1 ∧ Q_contents 4 s.Rx_Q = [sampleDefinitions.ESP32_MOVE_STOP] ∧
      s.currMvState = mvState.FORWARD := by
  refine ⟨_, rfl, by decide, by decide, by decide, by decide, by decide⟩

/-! ## Properties of `tAudio` -/

/-- A wake with the connected latch set keeps it set and does not play the
connected cue. -/
theorem tAudio_select_connEst_latched (d : Definitions) (c f : Bool) (l : AudioLocals)
    (hl : l.localIsConnected = true) :
    (tAudio_select d c f l).1.localIsConnected = true ∧
      (tAudio_select d c f l).2 ≠ Call.audioConnEst := by
  unfold tAudio_select
  by_cases h2 : (f && !l.localRunFinished) = true <;> simp [hl, h2]

/-- A wake with the finished latch set keeps it set and does not play the
finished cue. -/
theorem tAudio_select_runFin_latched (d : Definitions) (c f : Bool) (l : AudioLocals)
    (hl : l.localRunFinished = true) :
    (tAudio_select d c f l).1.localRunFinished = true ∧
      (tAudio_select d c f l).2 ≠ Call.audioRunFin := by
  unfold tAudio_select
  by_cases h1 : (c && !l.localIsConnected) = true <;> simp [hl, h1]

/-- Once the connected latch is set, the wakes of the signaled loop never play
the connected cue. -/
theorem tAudio_wakes_connEst_latched (d : Definitions) (obs : List (Bool × Bool)) :
    ∀ l : AudioLocals, l.localIsConnected = true →
      (tAudio_wakes d obs l).2.count Call.audioConnEst = 0 := by
  induction obs with
  | nil => intro l _; simp [tAudio_wakes]
  | cons o rest ih =>
    intro l hl
    obtain ⟨c, f⟩ := o
    obtain ⟨h1, h2⟩ := tAudio_select_connEst_latched d c f l hl
    simp only [tAudio_wakes]
    rw [List.count_cons_of_ne h2.symm]
    exact ih _ h1

/-- Once the finished latch is set, the wakes of the signaled loop never play
the finished cue. -/
theorem tAudio_wakes_runFin_latched (d : Definitions) (obs : List (Bool × Bool)) :
    ∀ l : AudioLocals, l.localRunFinished = true →
      (tAudio_wakes d obs l).2.count Call.audioRunFin = 0 := by
  induction obs with
  | nil => intro l _; simp [tAudio_wakes]
  | cons o rest ih =>
    intro l hl
    obtain ⟨c, f⟩ := o
    obtain ⟨h1, h2⟩ := tAudio_select_runFin_latched d c f l hl
    simp only [tAudio_wakes]
    rw [List.count_cons_of_ne h2.symm]
    exact ih _ h1

/-- The signaled loop of `tAudio` (lines 220-240), taken by itself, latches:
over any number of wakes and whatever the flags read, the connected cue and
the finished cue are each played at most once. -/
theorem tAudio_wakes_cues_at_most_once (d : Definitions) (obs : List (Bool × Bool)) :
    ∀ l : AudioLocals,
      (tAudio_wakes d obs l).2.count Call.audioConnEst ≤ 1 ∧
      (tAudio_wakes d obs l).2.count Call.audioRunFin ≤ 1 := by
  induction obs with
  | nil => intro l; simp [tAudio_wakes]
  | cons o rest ih =>
    intro l
    obtain ⟨c, f⟩ := o
    simp only [tAudio_wakes]
    by_cases h1 : (c && !l.localIsConnected) = true
    · have hs : tAudio_select d c f l = ({ l with localIsConnected := true }, Call.audioConnEst) := by
        simp [tAudio_select, h1]
      have k1 := tAudio_wakes_connEst_latched d rest { l with localIsConnected := true } rfl
      have k2 := (ih { l with localIsConnected := true }).2
      rw [hs]
      simp only [List.count_cons, k1]
      exact ⟨by simp, by simpa using k2⟩
    · by_cases h2 : (f && !l.localRunFinished) = true
      · have hs : tAudio_select d c f l =
            ({ l with localRunFinished := true }, Call.audioRunFin) := by
          simp [tAudio_select, h1, h2]
        have k1 := tAudio_wakes_runFin_latched d rest { l with localRunFinished := true } rfl
        have k2 := (ih { l with localRunFinished := true }).1
        rw [hs]
        simp only [List.count_cons, k1]
        exact ⟨by simpa using k2, by simp⟩
      · have hs : tAudio_select d c f l =
            ({ l with currNote := if l.currNote = d.SONGMAIN_NOTE_COUNT then 0
                else l.currNote + 1 }, Call.audioSong l.currNote) := by
          simp [tAudio_select, h1, h2]
        have k := ih { l with currNote := if l.currNote = d.SONGMAIN_NOTE_COUNT then 0
          else l.currNote + 1 }
        rw [hs]
        simp only [List.count_cons]
        exact ⟨by simpa using k.1, by simpa using k.2⟩

/-- C6 (the code diverges): a run of `tAudio` from task entry never leaves the
first loop `while (1) { audioConnEst(); }`: after `n` loop iterations, from any
shared state and without any wake, the task is still at entry and the calls
made are `n` times `audioConnEst`, so the connected cue is not played exactly
once and the signaled loop with its latches is never reached. -/
theorem tAudio_run_first_loop (d : Definitions) (n : Nat) :
    ∀ s : State,
      tAudio_run d n tAudio_entry s =
        (tAudio_entry, { s with trace := s.trace ++ List.replicate n Call.audioConnEst }) := by
  induction n with
  | zero => intro s; simp [tAudio_run]
  | succ n ih =>
    intro s
    simp [tAudio_run, tAudio_step, tAudio_entry, List.replicate_succ] at ih ⊢
    rw [ih]
    simp

end CG2271
